import Mathlib

/-
  Verification of the StateFlow workflow engine core
  (app/engine/state.py, node.py, graph.py, executor.py)
  as a shallow embedding in Lean 4.

  Python dicts are modelled as insertion-ordered association lists with
  unique keys; JSON-compatible values as the inductive type `Json`;
  Python exceptions as `Except String` results.
-/

/-- JSON-compatible value: the value type of a workflow state record
(null | bool | number | string | ordered sequence | nested mapping). -/
inductive Json where
  | null : Json
  | bool (b : Bool) : Json
  | num (n : Int) : Json
  | str (s : String) : Json
  | arr (elems : List Json) : Json
  | obj (fields : List (String × Json)) : Json

/-- A state record: Python `Dict[str, Any]` with JSON-shaped values,
modelled as an insertion-ordered association list. -/
abbrev Record := List (String × Json)

/-- Association-list lookup, mirroring Python `d[k]` / `k in d` on a dict. -/
def dlookup {α : Type} (l : List (String × α)) (k : String) : Option α :=
  (l.find? (fun p => p.1 == k)).map (fun p => p.2)

/-- Python `dict.copy()`: a new top-level mapping with the same entries
(at this pure level of the model, entry-for-entry identical). -/
def dictCopy (r : Record) : Record :=
  r.map (fun kv => (kv.1, kv.2))

/-- `WorkflowState` (state.py): a pydantic model holding `data : Dict[str, Any]`. -/
structure WorkflowState where
  data : Record

namespace WorkflowState

/-- `to_dict` (state.py line 39-41): `return self.data.copy()`. -/
def to_dict (s : WorkflowState) : Record :=
  dictCopy s.data

/-- `from_dict` (state.py line 47-50): `return cls(data=data)`. -/
def from_dict (d : Record) : WorkflowState :=
  ⟨d⟩

/-- Equality of two States is defined as equality of their records. -/
def stateEq (a b : WorkflowState) : Prop :=
  a.to_dict = b.to_dict

end WorkflowState

/-- A node (node.py): a named unit of work with `execute : State -> State`,
which may raise (modelled as `Except String`).  `FunctionNode.execute`
converts the state to a dict, applies the wrapped function and rebuilds
a `WorkflowState` from the result. -/
structure Node where
  name : String
  description : String
  execute : WorkflowState → Except String WorkflowState

/-- `FunctionNode` (node.py lines 47-88): wraps a function from state
dict to state dict; `execute` does `to_dict`, applies the function, then
`WorkflowState.from_dict` on the result. -/
def FunctionNode (name : String) (f : Record → Except String Record)
    (description : String := "") : Node :=
  { name := name
    description := description
    execute := fun st => (f st.to_dict).map WorkflowState.from_dict }

/-- An edge definition (graph.py `add_edge`): `{"to": ..., "condition": ...}`;
the condition is an optional predicate on the state that may itself raise. -/
structure Edge where
  to_node : String
  condition : Option (WorkflowState → Except String Bool)

/-- `WorkflowGraph` (graph.py): node table, adjacency lists, start node. -/
structure WorkflowGraph where
  name : String
  description : String
  nodes : List (String × Node)
  edges : List (String × List Edge)
  start_node : Option String

namespace WorkflowGraph

/-- `add_node` (graph.py lines 36-49).  Returns the graph after the call
together with the raised error message, if any; on a duplicate name the
exception is raised before any mutation. -/
def add_node (g : WorkflowGraph) (node : Node) : WorkflowGraph × Option String :=
  if (dlookup g.nodes node.name).isSome then
    (g, some ("Node '" ++ node.name ++ "' already exists in graph"))
  else
    let g := { g with nodes := g.nodes ++ [(node.name, node)] }
    let g := if g.start_node = none then { g with start_node := some node.name } else g
    (g, none)

/-- Insert an edge into the adjacency association list:
`if from_node not in self.edges: self.edges[from_node] = []` followed by
`self.edges[from_node].append(...)`. -/
def appendEdge (edges : List (String × List Edge)) (from_node : String) (e : Edge) :
    List (String × List Edge) :=
  if (dlookup edges from_node).isSome then
    edges.map (fun p => if p.1 == from_node then (p.1, p.2 ++ [e]) else p)
  else
    edges ++ [(from_node, [e])]

/-- `add_edge` (graph.py lines 51-76): both endpoints are checked (and the
exception raised) before any mutation; otherwise the edge is appended to the
ordered list for `from_node`, preserving call order. -/
def add_edge (g : WorkflowGraph) (from_node to_node : String)
    (condition : Option (WorkflowState → Except String Bool) := none) :
    WorkflowGraph × Option String :=
  if (dlookup g.nodes from_node).isNone then
    (g, some ("Source node '" ++ from_node ++ "' not found in graph"))
  else if (dlookup g.nodes to_node).isNone then
    (g, some ("Destination node '" ++ to_node ++ "' not found in graph"))
  else
    ({ g with edges := appendEdge g.edges from_node ⟨to_node, condition⟩ }, none)

/-- `set_start_node` (graph.py lines 78-87): check, then assign. -/
def set_start_node (g : WorkflowGraph) (node_name : String) :
    WorkflowGraph × Option String :=
  if (dlookup g.nodes node_name).isNone then
    (g, some ("Node '" ++ node_name ++ "' not found in graph"))
  else
    ({ g with start_node := some node_name }, none)

/-- The scan inside `get_next_node` (graph.py lines 103-112): walk the edge
list in order; follow the first edge whose condition is absent or true; an
exception raised by a condition propagates. -/
def findEdge (state : WorkflowState) : List Edge → Except String (Option String)
  | [] => .ok none
  | e :: rest =>
    match e.condition with
    | none => .ok (some e.to_node)
    | some cond =>
      match cond state with
      | .error msg => .error msg
      | .ok true => .ok (some e.to_node)
      | .ok false => findEdge state rest

/-- `get_next_node` (graph.py lines 89-112): `None` when the current node
has no entry in `edges`, otherwise the in-order scan above. -/
def get_next_node (g : WorkflowGraph) (current_node : String) (state : WorkflowState) :
    Except String (Option String) :=
  match dlookup g.edges current_node with
  | none => .ok none
  | some es => findEdge state es

/-- The edge list the scan works on: `self.edges[current]`, empty when absent. -/
def edgeList (g : WorkflowGraph) (current_node : String) : List Edge :=
  (dlookup g.edges current_node).getD []

/-- All node names, in insertion order (`self.nodes.keys()`). -/
def nodeNames (g : WorkflowGraph) : List String :=
  g.nodes.map (fun p => p.1)

/-- `nodes_with_incoming` (graph.py lines 135-138): the start node together
with every edge target. -/
def nodesWithIncoming (g : WorkflowGraph) : List String :=
  (match g.start_node with | some s => [s] | none => []) ++
    (g.edges.map (fun p => p.2.map (fun e => e.to_node))).flatten

/-- `orphaned` (graph.py line 140): every node name not in `nodes_with_incoming`. -/
def orphanedNodes (g : WorkflowGraph) : List String :=
  (nodeNames g).filter (fun n => !(nodesWithIncoming g).contains n)

/-- `validate` (graph.py lines 114-152). -/
def validate (g : WorkflowGraph) : List String :=
  if g.nodes.isEmpty then ["Graph has no nodes"]
  else
    let startErrs :=
      match g.start_node with
      | none => ["No start node set"]
      | some s =>
        if (dlookup g.nodes s).isSome then []
        else ["Start node '" ++ s ++ "' not found in graph"]
    let orphanErrs :=
      if orphanedNodes g ≠ [] then
        ["Orphaned nodes (no incoming edges): " ++ String.intercalate ", " (orphanedNodes g)]
      else []
    let edgeErrs :=
      (g.edges.map (fun p =>
        (if (dlookup g.nodes p.1).isNone then ["Edge from non-existent node: " ++ p.1] else [])
          ++ (p.2.filterMap (fun e =>
                if (dlookup g.nodes e.to_node).isNone then
                  some ("Edge to non-existent node: " ++ e.to_node)
                else none)))).flatten
    startErrs ++ orphanErrs ++ edgeErrs

end WorkflowGraph

/-- `ExecutionStep` (executor.py lines 14-41); the wall-clock `executed_at`
timestamp is outside the model.  All other fields are set in `__init__` and
never reassigned. -/
structure ExecutionStep where
  node_name : String
  step_number : Nat
  state_before : Record
  state_after : Record
  error : Option String

/-- An exception escaping the `while` loop of `execute` (executor.py):
the `ValueError` re-raised at line 199 after a caught failure, or an
uncaught `KeyError` from `self.graph.nodes[current_node_name]` (line 116,
which sits before the `try` block). -/
inductive RunErr where
  | nodeError (node : String) (msg : String)
  | keyError (node : String)

/-- The loop state at the moment the `while` loop of `execute` stops,
normally (`err = none`) or by a raised exception (`err = some _`). -/
structure LoopOut where
  current : Option String
  state : WorkflowState
  step_number : Nat
  log : List ExecutionStep
  err : Option RunErr

/-- The outcome of one `execute` call.  `execute` pairs it with the final
`self.execution_log`.  In the Python code the failures are `ValueError`s
distinguished by message (`Invalid graph: ...`, `Error executing node ...`,
`Workflow exceeded maximum steps ...`). -/
inductive ExecResult where
  | ok (final_state : Record) (steps_executed : Nat)
  | validationError (findings : List String)
  | nodeError (node : String) (msg : String)
  | stepBound (max_steps : Nat)
  | keyError (node : String)

/-- Whether an outcome is the normal-completion return of `execute`. -/
def ExecResult.isSuccess : ExecResult → Bool
  | .ok _ _ => true
  | _ => false

/-- The `while` loop of `execute` (executor.py lines 112-199), with
`fuel = max_steps - step_number` making the loop condition
`step_number < max_steps` structural.  The WebSocket streaming blocks
(lines 137-170 and 186-197) swallow their own failures and do not touch
state, log or control flow, so they are absent from the model. -/
def execLoop (g : WorkflowGraph) :
    Nat → Option String → WorkflowState → Nat → List ExecutionStep → LoopOut
  | _, none, state, step_number, log =>
    ⟨none, state, step_number, log, none⟩
  | 0, some c, state, step_number, log =>
    ⟨some c, state, step_number, log, none⟩
  | fuel + 1, some current_node_name, state, step_number, log =>
    let step_number := step_number + 1
    match dlookup g.nodes current_node_name with
    | none =>
      ⟨some current_node_name, state, step_number, log, some (.keyError current_node_name)⟩
    | some node =>
      let state_before := state.to_dict
      match node.execute state with
      | .error msg =>
        ⟨some current_node_name, state, step_number,
          log ++ [⟨current_node_name, step_number, state_before, state_before, some msg⟩],
          some (.nodeError current_node_name msg)⟩
      | .ok newState =>
        let state_after := newState.to_dict
        let log := log ++ [⟨current_node_name, step_number, state_before, state_after, none⟩]
        match g.get_next_node current_node_name newState with
        | .error msg =>
          ⟨some current_node_name, newState, step_number,
            log ++ [⟨current_node_name, step_number, state_before, state_before, some msg⟩],
            some (.nodeError current_node_name msg)⟩
        | .ok next => execLoop g fuel next newState step_number log

/-- `WorkflowExecutor.execute` (executor.py lines 85-221): validate, run the
loop from the start node with a fresh log, then either re-raise the loop's
exception, raise the max-steps error (`step_number >= self.max_steps`), or
return the final state with the log and step count.  The result is paired
with the `execution_log` contents at return/raise time. -/
def WorkflowExecutor.execute (g : WorkflowGraph) (max_steps : Nat) (initial_state : Record) :
    ExecResult × List ExecutionStep :=
  let errors := g.validate
  if errors ≠ [] then (.validationError errors, [])
  else
    let state := WorkflowState.from_dict initial_state
    let out := execLoop g max_steps g.start_node state 0 []
    match out.err with
    | some (.nodeError c msg) => (.nodeError c msg, out.log)
    | some (.keyError c) => (.keyError c, out.log)
    | none =>
      if max_steps ≤ out.step_number then (.stepBound max_steps, out.log)
      else (.ok out.state.to_dict out.step_number, out.log)

/-- The identity node function: returns the state dict unchanged. -/
def idFn : Record → Except String Record := fun r => .ok r

/-- A graph with no nodes (fresh `WorkflowGraph("empty")`). -/
def noNodesGraph : WorkflowGraph :=
  ⟨"empty", "", [], [], none⟩

/-- A graph with a single node `A` and no edges. -/
def oneGraph : WorkflowGraph :=
  ⟨"one", "", [("A", FunctionNode "A" idFn)], [], some "A"⟩

/-- A linear graph `A → B → C → D → E` with unguarded edges: a run needs
five steps to reach the terminal. -/
def fiveGraph : WorkflowGraph :=
  ⟨"five", "",
   [("A", FunctionNode "A" idFn), ("B", FunctionNode "B" idFn),
    ("C", FunctionNode "C" idFn), ("D", FunctionNode "D" idFn),
    ("E", FunctionNode "E" idFn)],
   [("A", [⟨"B", none⟩]), ("B", [⟨"C", none⟩]), ("C", [⟨"D", none⟩]),
    ("D", [⟨"E", none⟩])],
   some "A"⟩

/-- A single-node graph whose node raises. -/
def failGraph : WorkflowGraph :=
  ⟨"fail", "", [("F", FunctionNode "F" (fun _ => .error "boom"))], [], some "F"⟩

/-- A single-node graph with a self-edge whose guard predicate raises. -/
def guardFaultGraph : WorkflowGraph :=
  ⟨"guardfault", "", [("A", FunctionNode "A" idFn)],
   [("A", [⟨"A", some (fun _ => .error "guard boom")⟩])], some "A"⟩

/-- Start node `A`; nodes `B` and `C` connected only by an edge `B → C`:
`B` and `C` are both unreachable from `A`, but `C` has an incoming edge. -/
def orphanGraph : WorkflowGraph :=
  ⟨"orphan", "",
   [("A", FunctionNode "A" idFn), ("B", FunctionNode "B" idFn),
    ("C", FunctionNode "C" idFn)],
   [("B", [⟨"C", none⟩])], some "A"⟩

/-- C9: for every JSON-shaped State (keys mapped to null, bool, number,
string, nested sequences or nested mappings, including empty ones),
`from_dict (to_dict s)` equals `s`, where equality of States is equality
of their records: the round trip is lossless. -/
theorem from_dict_to_dict_roundtrip (s : WorkflowState) :
    WorkflowState.stateEq (WorkflowState.from_dict s.to_dict) s := by
  show (WorkflowState.from_dict s.to_dict).to_dict = s.to_dict
  simp [WorkflowState.to_dict, WorkflowState.from_dict, dictCopy]

/-- C5: a graph whose `validate()` returns a non-empty finding list makes
`execute` fail immediately with the findings, zero trace entries having
been produced; a graph with zero nodes always has the non-empty finding
list `["Graph has no nodes"]`, so `execute` on it never produces any
ExecutionStep. -/
theorem validation_failure_runs_nothing (g : WorkflowGraph) (max_steps : Nat) (init : Record) :
    (g.validate ≠ [] →
      WorkflowExecutor.execute g max_steps init = (.validationError g.validate, []))
    ∧ (g.nodes = [] →
      g.validate = ["Graph has no nodes"]
        ∧ WorkflowExecutor.execute g max_steps init =
            (.validationError ["Graph has no nodes"], [])) := by
  constructor
  · intro h
    simp [WorkflowExecutor.execute, h]
  · intro h
    have hv : g.validate = ["Graph has no nodes"] := by
      simp [WorkflowGraph.validate, h]
    refine ⟨hv, ?_⟩
    simp [WorkflowExecutor.execute, hv]

/-- Witness for C5 at the concrete graph with zero nodes. -/
theorem validation_failure_runs_nothing_witness :
    WorkflowGraph.validate noNodesGraph = ["Graph has no nodes"]
      ∧ WorkflowExecutor.execute noNodesGraph 5 [] =
          (.validationError ["Graph has no nodes"], []) :=
  (validation_failure_runs_nothing noNodesGraph 5 []).2 rfl

/-- C10: graph construction is atomic on failure — a failing `add_node`
(duplicate name), `add_edge` (missing endpoint, either side) or
`set_start_node` (unknown name) leaves the node table, edge lists and
start node exactly as they were before the call. -/
theorem graph_construction_atomic (g : WorkflowGraph) (nd : Node)
    (from_node to_node start_name : String)
    (c : Option (WorkflowState → Except String Bool)) :
    ((g.add_node nd).2.isSome → (g.add_node nd).1 = g)
    ∧ ((g.add_edge from_node to_node c).2.isSome → (g.add_edge from_node to_node c).1 = g)
    ∧ ((g.set_start_node start_name).2.isSome → (g.set_start_node start_name).1 = g) := by
  refine ⟨?_, ?_, ?_⟩
  · unfold WorkflowGraph.add_node
    split <;> simp_all
  · unfold WorkflowGraph.add_edge
    split <;> [simp_all; split <;> simp_all]
  · unfold WorkflowGraph.set_start_node
    split <;> simp_all

/-- Witness for C10: a duplicate `add_node`, an `add_edge` to a missing
node and a `set_start_node` on a missing node each fail and each leave
the concrete one-node graph unchanged. -/
theorem graph_construction_atomic_witness :
    (oneGraph.add_node (FunctionNode "A" idFn)).1 = oneGraph
    ∧ (oneGraph.add_edge "A" "Z" none).1 = oneGraph
    ∧ (oneGraph.set_start_node "Z").1 = oneGraph :=
  ⟨(graph_construction_atomic oneGraph (FunctionNode "A" idFn) "A" "Z" "Z" none).1 rfl,
   (graph_construction_atomic oneGraph (FunctionNode "A" idFn) "A" "Z" "Z" none).2.1 rfl,
   (graph_construction_atomic oneGraph (FunctionNode "A" idFn) "A" "Z" "Z" none).2.2 rfl⟩

/-- When the loop stops without a raised exception, either the terminal was
reached (`current = none`) or the fuel — i.e. the `step_number < max_steps`
condition — ran out, in which case the final step count is the initial one
plus the fuel. -/
theorem execLoop_exit (g : WorkflowGraph) (fuel : Nat) :
    ∀ cur st step log,
      (execLoop g fuel cur st step log).err = none →
      (execLoop g fuel cur st step log).current = none
        ∨ (execLoop g fuel cur st step log).step_number = step + fuel := by
  induction fuel with
  | zero =>
    intro cur st step log _
    match cur with
    | none => exact Or.inl rfl
    | some c => exact Or.inr rfl
  | succ n ih =>
    intro cur st step log h
    match cur with
    | none => exact Or.inl rfl
    | some c =>
      simp only [execLoop] at h ⊢
      cases hnd : dlookup g.nodes c with
      | none => simp [hnd] at h
      | some nd =>
        cases hex : nd.execute st with
        | error msg => simp [hnd, hex] at h
        | ok newSt =>
          cases hnx : g.get_next_node c newSt with
          | error msg => simp [hnd, hex, hnx] at h
          | ok next =>
            simp only [hnd, hex, hnx] at h ⊢
            rcases ih next newSt (step + 1) _ h with h1 | h1
            · exact Or.inl h1
            · right
              rw [h1]
              omega

/-- C2 (amended): `execute` fails with the max-steps error exactly when the
loop stops, without a raised exception, with `step_number >= max_steps` —
regardless of whether the current node is still present, so also when the
terminal is reached at exactly the `max_steps`-th step; it returns success,
with `{final state, trace, steps executed}`, exactly when the terminal is
reached in strictly fewer than `max_steps` steps, and on a bound-exceeded
failure the trace accumulated so far is kept (e.g. exactly 2 entries for
`max_steps = 2` on a graph requiring 5 steps). -/
theorem execute_step_bound (g : WorkflowGraph) (max_steps : Nat) (init : Record)
    (out : LoopOut) (hval : g.validate = [])
    (hout : execLoop g max_steps g.start_node (WorkflowState.from_dict init) 0 [] = out)
    (herr : out.err = none) :
    (max_steps ≤ out.step_number →
        WorkflowExecutor.execute g max_steps init = (.stepBound max_steps, out.log))
    ∧ (out.step_number < max_steps →
        out.current = none
          ∧ WorkflowExecutor.execute g max_steps init =
              (.ok out.state.to_dict out.step_number, out.log)) := by
  constructor
  · intro hle
    simp [WorkflowExecutor.execute, hval, hout, herr, hle]
  · intro hlt
    have hcur : out.current = none := by
      rcases execLoop_exit g max_steps g.start_node (WorkflowState.from_dict init) 0 []
          (by rw [hout]; exact herr) with h | h
      · rw [hout] at h; exact h
      · rw [hout] at h; omega
    refine ⟨hcur, ?_⟩
    simp [WorkflowExecutor.execute, hval, hout, herr, Nat.not_le.mpr hlt]

/-- C2 counterexample: on the one-node graph with `max_steps = 1` the
terminal is reached at exactly the bound (`get_next_node` returns none at
step 1), yet `execute` raises the max-steps failure instead of returning
success. -/
theorem execute_step_bound_counterexample :
    WorkflowExecutor.execute oneGraph 1 [] = (.stepBound 1, [⟨"A", 1, [], [], none⟩])
    ∧ (WorkflowExecutor.execute oneGraph 1 []).1 ≠ .ok [] 1 := by
  refine ⟨rfl, ?_⟩
  intro h
  rw [show (WorkflowExecutor.execute oneGraph 1 []).1 = ExecResult.stepBound 1 from rfl] at h
  simp at h

/-- Witness for C2 (amended): `max_steps = 2` on the 5-step linear graph
fails with the bound error and the accumulated trace has exactly 2 entries. -/
theorem execute_step_bound_witness :
    fiveGraph.validate = []
    ∧ WorkflowExecutor.execute fiveGraph 2 [] =
        (.stepBound 2, [⟨"A", 1, [], [], none⟩, ⟨"B", 2, [], [], none⟩])
    ∧ ([⟨"A", 1, [], [], none⟩, ⟨"B", 2, [], [], none⟩] : List ExecutionStep).length = 2 :=
  ⟨rfl,
   (execute_step_bound fiveGraph 2 []
      ⟨some "C", ⟨[]⟩, 2, [⟨"A", 1, [], [], none⟩, ⟨"B", 2, [], [], none⟩], none⟩
      rfl rfl rfl).1 (Nat.le_refl 2),
   rfl⟩

/-- An edge is followed when its guard is absent or evaluates to true
(graph.py line 107-108). -/
def edgePasses (state : WorkflowState) (e : Edge) : Prop :=
  e.condition = none ∨ ∃ c, e.condition = some c ∧ c state = .ok true

/-- C3: when a node's execution raises at a step, the loop appends exactly
one trace entry for that step, with `state_after` equal to `state_before`
and a non-null error, and stops at once; a run whose loop ends with such an
error is reported by `execute` as the node-execution failure carrying the
log so far (the earlier successful entries preserved), never as success. -/
theorem node_failure_aborts_run (g : WorkflowGraph) (fuel : Nat) (c : String)
    (st : WorkflowState) (step : Nat) (log : List ExecutionStep) (nd : Node)
    (msg : String) (max_steps : Nat) (init : Record) (out : LoopOut) :
    (dlookup g.nodes c = some nd → nd.execute st = .error msg →
      execLoop g (fuel + 1) (some c) st step log =
        ⟨some c, st, step + 1,
         log ++ [⟨c, step + 1, st.to_dict, st.to_dict, some msg⟩],
         some (.nodeError c msg)⟩)
    ∧ (g.validate = [] →
       execLoop g max_steps g.start_node (WorkflowState.from_dict init) 0 [] = out →
       ∀ c' m', out.err = some (.nodeError c' m') →
         WorkflowExecutor.execute g max_steps init = (.nodeError c' m', out.log)
           ∧ (WorkflowExecutor.execute g max_steps init).1.isSuccess = false) := by
  constructor
  · intro hnd hfail
    simp [execLoop, hnd, hfail]
  · intro hval hout c' m' herr
    have hx : WorkflowExecutor.execute g max_steps init = (.nodeError c' m', out.log) := by
      simp [WorkflowExecutor.execute, hval, hout, herr]
    exact ⟨hx, by rw [hx]; rfl⟩

/-- Witness for C3: the single failing node of `failGraph` yields one trace
entry with identical before/after snapshots and a non-null error, and the
run reports the node failure, not success. -/
theorem node_failure_aborts_run_witness :
    WorkflowExecutor.execute failGraph 10 [] =
        (.nodeError "F" "boom", [⟨"F", 1, [], [], some "boom"⟩])
    ∧ (WorkflowExecutor.execute failGraph 10 []).1.isSuccess = false :=
  (node_failure_aborts_run failGraph 9 "F" ⟨[]⟩ 0 []
      (FunctionNode "F" (fun _ => .error "boom")) "boom" 10 []
      ⟨some "F", ⟨[]⟩, 1, [⟨"F", 1, [], [], some "boom"⟩],
        some (.nodeError "F" "boom")⟩).2
    rfl rfl "F" "boom" rfl

/-- C4: a guard predicate that raises during `get_next_node` evaluation is
never coerced to false — the scan stops and the exception propagates — and
the executor treats it exactly as a node failure: the step's loop iteration
ends with the same node-execution error, the loop stops, and the run is
reported as failed, never as a normal completion. -/
theorem guard_fault_aborts_run (g : WorkflowGraph) (fuel : Nat) (c : String)
    (st newSt : WorkflowState) (step : Nat) (log : List ExecutionStep) (nd : Node)
    (msg : String) (max_steps : Nat) (init : Record) (out : LoopOut)
    (st2 : WorkflowState) (es₁ es₂ : List Edge) (e : Edge)
    (cnd : WorkflowState → Except String Bool) :
    (dlookup g.nodes c = some nd → nd.execute st = .ok newSt →
      g.get_next_node c newSt = .error msg →
      execLoop g (fuel + 1) (some c) st step log =
        ⟨some c, newSt, step + 1,
         log ++ [⟨c, step + 1, st.to_dict, newSt.to_dict, none⟩,
                 ⟨c, step + 1, st.to_dict, st.to_dict, some msg⟩],
         some (.nodeError c msg)⟩)
    ∧ ((∀ e' ∈ es₁, ∃ c', e'.condition = some c' ∧ c' st2 = .ok false) →
       e.condition = some cnd → cnd st2 = .error msg →
       WorkflowGraph.findEdge st2 (es₁ ++ e :: es₂) = .error msg)
    ∧ (g.validate = [] →
       execLoop g max_steps g.start_node (WorkflowState.from_dict init) 0 [] = out →
       out.err = some (.nodeError c msg) →
       WorkflowExecutor.execute g max_steps init = (.nodeError c msg, out.log)
         ∧ (WorkflowExecutor.execute g max_steps init).1.isSuccess = false) := by
  refine ⟨?_, ?_, ?_⟩
  · intro hnd hex hguard
    simp [execLoop, hnd, hex, hguard]
  · intro hpre hc he
    induction es₁ with
    | nil => simp [WorkflowGraph.findEdge, hc, he]
    | cons a as ih =>
      obtain ⟨c', hc', hfalse⟩ := hpre a (by simp)
      have : WorkflowGraph.findEdge st2 ((a :: as) ++ e :: es₂)
          = WorkflowGraph.findEdge st2 (as ++ e :: es₂) := by
        simp [WorkflowGraph.findEdge, hc', hfalse]
      rw [this]
      exact ih (fun e' he' => hpre e' (by simp [he']))
  · intro hval hout herr
    have hx : WorkflowExecutor.execute g max_steps init = (.nodeError c msg, out.log) := by
      simp [WorkflowExecutor.execute, hval, hout, herr]
    exact ⟨hx, by rw [hx]; rfl⟩

/-- Witness for C4: the one-node graph whose only (self-)edge guard raises:
`findEdge` propagates the guard's exception, and the run fails with the
node-execution error, never completing normally. -/
theorem guard_fault_aborts_run_witness :
    WorkflowGraph.findEdge ⟨[]⟩ ([] ++ [⟨"A", some (fun _ => .error "guard boom")⟩])
        = .error "guard boom"
    ∧ WorkflowExecutor.execute guardFaultGraph 10 [] =
        (.nodeError "A" "guard boom",
         [⟨"A", 1, [], [], none⟩, ⟨"A", 1, [], [], some "guard boom"⟩])
    ∧ (WorkflowExecutor.execute guardFaultGraph 10 []).1.isSuccess = false := by
  have t := guard_fault_aborts_run guardFaultGraph 9 "A" ⟨[]⟩ ⟨[]⟩ 0 []
      (FunctionNode "A" idFn) "guard boom" 10 []
      ⟨some "A", ⟨[]⟩, 1,
        [⟨"A", 1, [], [], none⟩, ⟨"A", 1, [], [], some "guard boom"⟩],
        some (.nodeError "A" "guard boom")⟩
      ⟨[]⟩ [] [] ⟨"A", some (fun _ => .error "guard boom")⟩ (fun _ => .error "guard boom")
  exact ⟨t.2.1 (by simp) rfl rfl, (t.2.2 rfl rfl rfl).1, (t.2.2 rfl rfl rfl).2⟩

/-- `get_next_node` is the in-order scan of `edges[current]`, the empty
scan when `current` has no entry. -/
theorem get_next_node_eq_findEdge (g : WorkflowGraph) (cur : String) (st : WorkflowState) :
    g.get_next_node cur st = WorkflowGraph.findEdge st (g.edgeList cur) := by
  unfold WorkflowGraph.get_next_node WorkflowGraph.edgeList
  cases dlookup g.edges cur <;> simp [WorkflowGraph.findEdge]

/-- An edge whose guard evaluates to false does not pass. -/
theorem not_edgePasses_of_false (st : WorkflowState) (e : Edge)
    (c : WorkflowState → Except String Bool)
    (hc : e.condition = some c) (hb : c st = .ok false) : ¬ edgePasses st e := by
  rintro (h | ⟨c', hc', htrue⟩)
  · rw [h] at hc; exact Option.noConfusion hc
  · rw [hc] at hc'
    injection hc' with h'
    subst h'
    rw [htrue] at hb
    simp at hb

/-- The scan answers "no edge" exactly when no edge of the list passes
(assuming every guard on the list evaluates without raising). -/
theorem findEdge_none_iff (st : WorkflowState) :
    ∀ es : List Edge,
      (∀ e ∈ es, ∀ c, e.condition = some c → ∃ b, c st = .ok b) →
      (WorkflowGraph.findEdge st es = .ok none ↔ ∀ e ∈ es, ¬ edgePasses st e) := by
  intro es
  induction es with
  | nil => intro _; simp [WorkflowGraph.findEdge]
  | cons a rest ih =>
    intro hok
    cases hca : a.condition with
    | none =>
      have hpass : edgePasses st a := Or.inl hca
      simp only [WorkflowGraph.findEdge, hca]
      constructor
      · intro h; exact absurd h (by simp)
      · intro h; exact absurd hpass (h a (by simp))
    | some c =>
      obtain ⟨b, hb⟩ := hok a (by simp) c hca
      cases b with
      | true =>
        have hpass : edgePasses st a := Or.inr ⟨c, hca, hb⟩
        simp only [WorkflowGraph.findEdge, hca, hb]
        constructor
        · intro h; exact absurd h (by simp)
        · intro h; exact absurd hpass (h a (by simp))
      | false =>
        have hnp := not_edgePasses_of_false st a c hca hb
        have hrec : WorkflowGraph.findEdge st (a :: rest) = WorkflowGraph.findEdge st rest := by
          simp [WorkflowGraph.findEdge, hca, hb]
        rw [hrec, ih (fun e he => hok e (by simp [he]))]
        constructor
        · intro h e he
          rcases List.mem_cons.mp he with h1 | h1
          · subst h1; exact hnp
          · exact h e h1
        · intro h e he; exact h e (by simp [he])

/-- The scan answers a node exactly when it is the destination of the first
passing edge — every earlier edge fails — of the list (assuming every guard
on the list evaluates without raising). -/
theorem findEdge_some_iff (st : WorkflowState) :
    ∀ es : List Edge,
      (∀ e ∈ es, ∀ c, e.condition = some c → ∃ b, c st = .ok b) →
      ∀ t, (WorkflowGraph.findEdge st es = .ok (some t) ↔
        ∃ es₁ e es₂, es = es₁ ++ e :: es₂
          ∧ (∀ e' ∈ es₁, ¬ edgePasses st e')
          ∧ edgePasses st e ∧ t = e.to_node) := by
  intro es
  induction es with
  | nil =>
    intro _ t
    constructor
    · intro h; exact absurd h (by simp [WorkflowGraph.findEdge])
    · rintro ⟨es₁, e, es₂, heq, -, -, -⟩
      cases es₁ <;> simp at heq
  | cons a rest ih =>
    intro hok t
    have hstep : ∀ (hpass : edgePasses st a),
        (WorkflowGraph.findEdge st (a :: rest) = .ok (some t) ↔ t = a.to_node) := by
      intro hpass
      rcases hpass with h | ⟨c, hc, htrue⟩
      · simp [WorkflowGraph.findEdge, h, eq_comm]
      · simp [WorkflowGraph.findEdge, hc, htrue, eq_comm]
    cases hca : a.condition with
    | none =>
      have hpass : edgePasses st a := Or.inl hca
      rw [hstep hpass]
      constructor
      · intro h
        exact ⟨[], a, rest, rfl, by simp, hpass, h⟩
      · rintro ⟨es₁, e, es₂, heq, hfails, hep, ht⟩
        cases es₁ with
        | nil => simp at heq; rw [ht, heq.1]
        | cons b bs =>
          simp at heq
          exact absurd (heq.1 ▸ hpass) (hfails b (by simp))
    | some c =>
      obtain ⟨b, hb⟩ := hok a (by simp) c hca
      cases b with
      | true =>
        have hpass : edgePasses st a := Or.inr ⟨c, hca, hb⟩
        rw [hstep hpass]
        constructor
        · intro h
          exact ⟨[], a, rest, rfl, by simp, hpass, h⟩
        · rintro ⟨es₁, e, es₂, heq, hfails, hep, ht⟩
          cases es₁ with
          | nil => simp at heq; rw [ht, heq.1]
          | cons b' bs =>
            simp at heq
            exact absurd (heq.1 ▸ hpass) (hfails b' (by simp))
      | false =>
        have hnp := not_edgePasses_of_false st a c hca hb
        have hrec : WorkflowGraph.findEdge st (a :: rest) = WorkflowGraph.findEdge st rest := by
          simp [WorkflowGraph.findEdge, hca, hb]
        rw [hrec, ih (fun e he => hok e (by simp [he])) t]
        constructor
        · rintro ⟨es₁, e, es₂, heq, hfails, hep, ht⟩
          refine ⟨a :: es₁, e, es₂, by simp [heq], ?_, hep, ht⟩
          intro e' he'
          rcases List.mem_cons.mp he' with h1 | h1
          · subst h1; exact hnp
          · exact hfails e' h1
        · rintro ⟨es₁, e, es₂, heq, hfails, hep, ht⟩
          cases es₁ with
          | nil =>
            simp at heq
            exact absurd (heq.1 ▸ hep) hnp
          | cons b' bs =>
            simp at heq
            exact ⟨bs, e, es₂, heq.2, fun e' he' => hfails e' (by simp [he']), hep, ht⟩

/-- C1: `get_next_node` scans the current node's edge list in declaration
order and returns the destination of the first edge whose guard is absent
or evaluates to true — every earlier edge fails its guard, so a later
also-true edge is never chosen — and returns none exactly when the current
node has no outgoing edges or every guard evaluates to false (stated under
the hypothesis that every guard on the list evaluates without raising). -/
theorem get_next_node_first_match (g : WorkflowGraph) (cur : String) (st : WorkflowState)
    (hok : ∀ e ∈ g.edgeList cur, ∀ c, e.condition = some c → ∃ b, c st = .ok b) :
    (∀ t, g.get_next_node cur st = .ok (some t) ↔
      ∃ es₁ e es₂, g.edgeList cur = es₁ ++ e :: es₂
        ∧ (∀ e' ∈ es₁, ¬ edgePasses st e')
        ∧ edgePasses st e ∧ t = e.to_node)
    ∧ (g.get_next_node cur st = .ok none ↔ ∀ e ∈ g.edgeList cur, ¬ edgePasses st e) := by
  have heq := get_next_node_eq_findEdge g cur st
  constructor
  · intro t
    rw [heq]
    exact findEdge_some_iff st _ hok t
  · rw [heq]
    exact findEdge_none_iff st _ hok

/-- Nodes `A`, `B`, `C`; edges from `A` in declaration order: to `B` under a
false guard, to `C` unguarded, to `B` unguarded (a later also-true edge). -/
def firstMatchGraph : WorkflowGraph :=
  ⟨"firstmatch", "",
   [("A", FunctionNode "A" idFn), ("B", FunctionNode "B" idFn),
    ("C", FunctionNode "C" idFn)],
   [("A", [⟨"B", some (fun _ => .ok false)⟩, ⟨"C", none⟩, ⟨"B", none⟩])],
   some "A"⟩

/-- Witness for C1: on the concrete graph the first passing edge (to `C`)
is chosen, not the later also-true edge to `B`. -/
theorem get_next_node_first_match_witness :
    firstMatchGraph.get_next_node "A" ⟨[]⟩ = .ok (some "C") := by
  have t := get_next_node_first_match firstMatchGraph "A" ⟨[]⟩ (by
    intro e he c hc
    fin_cases he
    · exact ⟨false, by injection hc with h; rw [← h]⟩
    · simp at hc
    · simp at hc)
  exact (t.1 "C").mpr
    ⟨[⟨"B", some (fun _ => .ok false)⟩], ⟨"C", none⟩, [⟨"B", none⟩], rfl,
     by intro e' he'; fin_cases he'; simp [edgePasses],
     Or.inl rfl, rfl⟩

/-- Modelled from the spec: "any node unreachable from the start node" —
the nodes reachable from the start by following edges.  This is the spec's
reference notion, stated for comparison with the code's orphan check
(which instead looks for nodes without incoming edges). -/
inductive ReachableFromStart (g : WorkflowGraph) : String → Prop where
  | start (s : String) : g.start_node = some s → ReachableFromStart g s
  | step (a : String) (e : Edge) : ReachableFromStart g a →
      e ∈ g.edgeList a → ReachableFromStart g e.to_node

/-- In `orphanGraph` only the start node `A` is reachable. -/
theorem orphanGraph_reachable_eq (x : String) :
    ReachableFromStart orphanGraph x → x = "A" := by
  intro h
  induction h with
  | start s hs =>
    injection hs with h'
    exact h'.symm
  | step a e _ hmem ih =>
    subst ih
    simp [WorkflowGraph.edgeList, dlookup, orphanGraph] at hmem

/-- C7 counterexample: with start node `A` and nodes `B`, `C` connected only
by `B → C`, node `C` is not the start and is unreachable from it, yet the
orphan check flags only `B`; `validate` reports no finding for `C`. -/
theorem validate_orphans_counterexample :
    orphanGraph.start_node = some "A"
    ∧ "C" ∈ orphanGraph.nodeNames
    ∧ ¬ ReachableFromStart orphanGraph "C"
    ∧ orphanGraph.orphanedNodes = ["B"]
    ∧ "C" ∉ orphanGraph.orphanedNodes
    ∧ orphanGraph.validate = ["Orphaned nodes (no incoming edges): B"] := by
  refine ⟨rfl, by simp [WorkflowGraph.nodeNames, orphanGraph], ?_, rfl, by decide, rfl⟩
  intro h
  exact absurd (orphanGraph_reachable_eq "C" h) (by decide)

/-- C7 (amended): `validate`'s orphan finding flags exactly the nodes that
have no incoming edge and are not the start node (so a node with an
incoming edge is never flagged, even when unreachable from the start), and
whenever that set is non-empty a single finding listing it is reported. -/
theorem validate_orphans (g : WorkflowGraph) (n : String) :
    (n ∈ g.orphanedNodes ↔ n ∈ g.nodeNames ∧ n ∉ g.nodesWithIncoming)
    ∧ (g.nodes ≠ [] → g.orphanedNodes ≠ [] →
        ("Orphaned nodes (no incoming edges): "
            ++ String.intercalate ", " g.orphanedNodes) ∈ g.validate) := by
  constructor
  · simp [WorkflowGraph.orphanedNodes, List.mem_filter]
  · intro h1 h2
    simp [WorkflowGraph.validate, h1, h2]

/-- Witness for C7 (amended) on the concrete graph: `B` (no incoming edge)
is flagged and the finding appears in `validate`'s output. -/
theorem validate_orphans_witness :
    ("B" ∈ orphanGraph.orphanedNodes
        ↔ "B" ∈ orphanGraph.nodeNames ∧ "B" ∉ orphanGraph.nodesWithIncoming)
    ∧ ("Orphaned nodes (no incoming edges): B") ∈ orphanGraph.validate :=
  ⟨(validate_orphans orphanGraph "B").1,
   (validate_orphans orphanGraph "B").2
     (fun h => List.noConfusion h) (fun h => List.noConfusion h)⟩

/-- Shape of the entries the loop appends: their step numbers are the
consecutive numbers following the entry step count — except that an
iteration whose guard evaluation raises after a successful node execution
appends a second entry repeating its step number. -/
theorem execLoop_log_shape (g : WorkflowGraph) (fuel : Nat) :
    ∀ cur st step log,
      ∃ tail k,
        (execLoop g fuel cur st step log).log = log ++ tail
        ∧ (tail.map ExecutionStep.step_number = List.range' (step + 1) k
           ∨ tail.map ExecutionStep.step_number = List.range' (step + 1) k ++ [step + k]) := by
  induction fuel with
  | zero =>
    intro cur st step log
    refine ⟨[], 0, ?_, Or.inl rfl⟩
    match cur with
    | none => simp [execLoop]
    | some c => simp [execLoop]
  | succ n ih =>
    intro cur st step log
    match cur with
    | none => exact ⟨[], 0, by simp [execLoop], Or.inl rfl⟩
    | some c =>
      simp only [execLoop]
      cases hnd : dlookup g.nodes c with
      | none => exact ⟨[], 0, by simp, Or.inl rfl⟩
      | some nd =>
        cases hex : nd.execute st with
        | error msg =>
          refine ⟨[⟨c, step + 1, st.to_dict, st.to_dict, some msg⟩], 1, by simp [hex], Or.inl ?_⟩
          simp [List.range'_succ]
        | ok newSt =>
          cases hnx : g.get_next_node c newSt with
          | error msg =>
            refine ⟨[⟨c, step + 1, st.to_dict, newSt.to_dict, none⟩,
                     ⟨c, step + 1, st.to_dict, st.to_dict, some msg⟩], 1,
                    by simp [hex, hnx], Or.inr ?_⟩
            simp [List.range'_succ]
          | ok next =>
            obtain ⟨tail', k', hlog', hshape'⟩ :=
              ih next newSt (step + 1) (log ++ [⟨c, step + 1, st.to_dict, newSt.to_dict, none⟩])
            refine ⟨⟨c, step + 1, st.to_dict, newSt.to_dict, none⟩ :: tail', k' + 1, ?_, ?_⟩
            · simp only [hex, hnx]
              rw [hlog']
              simp
            · rcases hshape' with h | h
              · left
                simp [List.range'_succ, h]
              · right
                rw [List.map_cons, h, List.range'_succ]
                simp
                omega

/-- C8 (amended): in every run's trace the step numbers are the 1-based
consecutive sequence `1, …, k` — one entry per attempted node execution,
strictly increasing — except that a run aborted by a guard-evaluation
fault repeats its final step number: the successful node execution of that
step and the fault's error record share it (entries themselves are
immutable records, never changed after creation). -/
theorem execute_trace_step_numbers (g : WorkflowGraph) (max_steps : Nat) (init : Record) :
    ∃ k, (WorkflowExecutor.execute g max_steps init).2.map ExecutionStep.step_number
            = List.range' 1 k
      ∨ (WorkflowExecutor.execute g max_steps init).2.map ExecutionStep.step_number
            = List.range' 1 k ++ [k] := by
  by_cases hval : g.validate = []
  · obtain ⟨tail, k, hlog, hshape⟩ :=
      execLoop_log_shape g max_steps g.start_node (WorkflowState.from_dict init) 0 []
    have h2 : (WorkflowExecutor.execute g max_steps init).2
        = (execLoop g max_steps g.start_node (WorkflowState.from_dict init) 0 []).log := by
      simp only [WorkflowExecutor.execute, hval]
      split
      · simp_all
      · split
        · rfl
        · rfl
        · split <;> rfl
    rw [h2, hlog]
    refine ⟨k, ?_⟩
    simpa using hshape
  · refine ⟨0, Or.inl ?_⟩
    simp [WorkflowExecutor.execute, hval]

/-- C8 counterexample: a guard fault after a successful node execution
makes the run's trace contain two entries with the same step number — the
trace of the `guardFaultGraph` run is two entries both numbered 1, produced
by a single attempted node execution. -/
theorem execute_trace_step_numbers_counterexample :
    (WorkflowExecutor.execute guardFaultGraph 10 []).2
        = [⟨"A", 1, [], [], none⟩, ⟨"A", 1, [], [], some "guard boom"⟩]
    ∧ (WorkflowExecutor.execute guardFaultGraph 10 []).2.map ExecutionStep.step_number = [1, 1]
    ∧ ¬ ((WorkflowExecutor.execute guardFaultGraph 10 []).2.map
          ExecutionStep.step_number).Nodup := by
  refine ⟨rfl, rfl, ?_⟩
  rw [show (WorkflowExecutor.execute guardFaultGraph 10 []).2.map ExecutionStep.step_number
        = [1, 1] from rfl]
  decide

/-
  The remaining claims concern Python object aliasing, which the pure
  `Record` model cannot express.  This section refines the state model
  with an explicit heap: a nested mutable container (a Python list; one
  nesting level suffices here) lives in a heap cell addressed by `Nat`,
  and a dict value is either an immutable primitive or a reference to a
  cell.  `self.data.copy()` — the body of `to_dict`, used by the executor
  for every `state_before`/`state_after` snapshot — copies the top-level
  key→value mapping but not the cells the values reference, while
  `copy.deepcopy` (the `WorkflowState.copy` method, which the executor's
  snapshots do not use) would clone the cells.
-/

/-- A heap of mutable list cells. -/
abbrev Heap := List (List Json)

/-- A dict value in the heap model: an immutable primitive, or a reference
to a mutable list cell. -/
inductive HVal where
  | prim (j : Json)
  | ref (addr : Nat)

/-- A state record in the heap model. -/
abbrev HRecord := List (String × HVal)

/-- `dict.copy()` in the heap model: the top-level mapping is copied entry
by entry; references still point at the same cells. -/
def hDictCopy (r : HRecord) : HRecord :=
  r.map (fun kv => (kv.1, kv.2))

/-- In-place mutation of one heap cell (`lst.append(...)`, `lst[i] = ...`
performed by a node on a nested sequence): every reference to the cell now
reads the new contents. -/
def mutateCell (h : Heap) (addr : Nat) (cell : List Json) : Heap :=
  h.set addr cell

/-- Materialize a value of the heap model as the JSON tree an observer of
the logged snapshot would read. -/
def matVal (h : Heap) : HVal → Option Json
  | .prim j => some j
  | .ref a => (h.get? a).map Json.arr

/-- Materialize a whole record of the heap model. -/
def matRecord (h : Heap) (r : HRecord) : Option (List (String × Json)) :=
  r.mapM (fun kv => (matVal h kv.2).map (fun j => (kv.1, j)))

/-- Heap before the mutation: one cell holding the list `[1]`. -/
def heap0 : Heap := [[Json.num 1]]

/-- The running state's record: key `xs` referencing the cell. -/
def rec0 : HRecord := [("xs", HVal.ref 0)]

/-- The heap after a subsequent node appends `2` to the nested list. -/
def heap1 : Heap := mutateCell heap0 0 [Json.num 1, Json.num 2]

/-- C6 counterexample: the snapshot `to_dict` takes of `rec0` reads as
`{xs: [1]}` when logged, but after a later node's in-place append to the
nested list the same logged snapshot reads as `{xs: [1, 2]}`: a later
mutation changed an earlier logged snapshot, so the snapshot is not a
deep, non-aliased copy. -/
theorem to_dict_snapshot_aliasing_counterexample :
    hDictCopy rec0 = rec0
    ∧ matRecord heap0 (hDictCopy rec0) = some [("xs", Json.arr [Json.num 1])]
    ∧ matRecord heap1 (hDictCopy rec0) = some [("xs", Json.arr [Json.num 1, Json.num 2])]
    ∧ matRecord heap1 (hDictCopy rec0) ≠ matRecord heap0 (hDictCopy rec0) := by
  refine ⟨rfl, rfl, rfl, ?_⟩
  intro h
  rw [show matRecord heap1 (hDictCopy rec0)
        = some [("xs", Json.arr [Json.num 1, Json.num 2])] from rfl,
      show matRecord heap0 (hDictCopy rec0)
        = some [("xs", Json.arr [Json.num 1])] from rfl] at h
  simp at h

/-- C6 (amended): a trace snapshot (`to_dict`, i.e. `dict.copy()`) is a
copy of the top-level mapping only: it reproduces the state's record
exactly as of snapshot time — so replacing the whole state between steps
never changes an earlier logged snapshot — but nested mutable containers
are aliased rather than cloned, so an in-place mutation of a nested
container by a subsequent node does change what an earlier logged snapshot
reads as (concrete instance in the last conjunct). -/
theorem to_dict_snapshot_shallow (r : HRecord) (h : Heap) :
    hDictCopy r = r
    ∧ matRecord h (hDictCopy r) = matRecord h r
    ∧ matRecord heap1 (hDictCopy rec0) ≠ matRecord heap0 (hDictCopy rec0) := by
  have hc : hDictCopy r = r := by
    simp [hDictCopy]
  refine ⟨hc, by rw [hc], ?_⟩
  intro hcontra
  rw [show matRecord heap1 (hDictCopy rec0)
        = some [("xs", Json.arr [Json.num 1, Json.num 2])] from rfl,
      show matRecord heap0 (hDictCopy rec0)
        = some [("xs", Json.arr [Json.num 1])] from rfl] at hcontra
  simp at hcontra
